import Mathlib

/-!
# Verification of the eden-go-migration migration engine

Shallow embedding of `migration.go` (package `migration`): the version
comparator (`parseVersionParts` / `compareVersions`), the SQL statement
splitter (`splitSQLStatements`), the script-name parser
(`parseScriptVersion`), and the migration engine
(`processSQLFile` / `executeScriptFile` / `Migrate`).

Modelling conventions:
* Go strings are Lean `String`s; character scanning works on `String.data`
  (the list of characters), which matches Go's `for _, c := range s`
  rune iteration for the ASCII inputs the engine manipulates.
* Go `int` is 64-bit on the supported targets; `strconv.Atoi` is modelled
  as an `Option Int` with the `int64` range check (out-of-range input is an
  error, and `parseVersionParts` maps any error to `0`).
* The database handle (gorm) is modelled by an explicit `DBState`:
  - `applied` is the list of SQL statements that have been successfully
    executed against the connection (the observable schema/data effects);
  - `ledger` is the content of the `sys_db_version` table;
  - `tableExists` records whether the version table exists.
  Statement execution can fail; which statement fails is an oracle
  parameter `fails : String → Bool`.  The md5 digest is likewise an
  abstract parameter `md5sum : String → String`.
* The filesystem is a list of `FileEntry` (basename plus `Option`al
  content, `none` meaning the file is unreadable).
* `sort.Slice` is modelled by a deterministic insertion sort using the
  same comparison callback.  Go's sort is unstable, so for inputs with
  ties the Go order is unspecified; all theorems below either hold for
  every permutation or use inputs whose comparisons are strict.
-/

namespace EdenGoMigration

/-! ## Character classes (Go `unicode.IsSpace`, RE2 `\d`) -/

/-- RE2 `\d`, i.e. ASCII `0`-`9`, used by the filename regex; also the digit
set accepted by `strconv.Atoi`. -/
def isDigit (c : Char) : Bool := 48 ≤ c.toNat && c.toNat ≤ 57

/-- The code points trimmed by Go's `strings.TrimSpace`
(`unicode.IsSpace`): `\t \n \v \f \r space`, U+0085, U+00A0, U+1680,
U+2000-U+200A, U+2028, U+2029, U+202F, U+205F, U+3000. -/
def isGoSpace (c : Char) : Bool :=
  let n := c.toNat
  (9 ≤ n && n ≤ 13) || n = 32 || n = 133 || n = 160 || n = 5760 ||
  (8192 ≤ n && n ≤ 8202) || n = 8232 || n = 8233 || n = 8239 ||
  n = 8287 || n = 12288

/-- `strings.TrimSpace`: drop leading and trailing white space. -/
def trimSpace (cs : List Char) : List Char :=
  ((cs.dropWhile isGoSpace).reverse.dropWhile isGoSpace).reverse

/-! ## Version comparator -/

/-- `strings.Split s "."` (the separator is the single character `.`). -/
def splitOnDot : List Char → List (List Char)
  | [] => [[]]
  | c :: cs =>
    if c = '.' then [] :: splitOnDot cs
    else
      match splitOnDot cs with
      | [] => [[c]]
      | g :: gs => (c :: g) :: gs

/-- Numeric value of a digit string (the accumulator loop of `ParseInt`). -/
def digitsToNat : List Char → Nat → Nat
  | [], acc => acc
  | c :: cs, acc => digitsToNat cs (acc * 10 + (c.toNat - 48))

/-- `strconv.Atoi`: optional sign, one or more ASCII digits, nothing else,
result within the `int64` range; `none` is Go's non-nil error. -/
def atoi (s : List Char) : Option Int :=
  let signed : Int × List Char :=
    match s with
    | '+' :: rest => (1, rest)
    | '-' :: rest => (-1, rest)
    | _ => (1, s)
  let ds := signed.2
  if ds = [] then none
  else if ds.all isDigit then
    let v : Int := signed.1 * (digitsToNat ds 0 : Int)
    if -(2 ^ 63) ≤ v ∧ v ≤ 2 ^ 63 - 1 then some v else none
  else none

/-- `parseVersionParts`: split on `.` and `Atoi` each part, `0` on error. -/
def parseVersionParts (version : String) : List Int :=
  (splitOnDot version.data).map (fun p => (atoi p).getD 0)

/-- The `compareVersions` loop restricted to an exhausted left operand
(`valA = 0` for every remaining index). -/
def cmpZero : List Int → Int
  | [] => 0
  | b :: bs => if 0 < b then -1 else if b < 0 then 1 else cmpZero bs

/-- The index loop of `compareVersions`: walk both part lists up to the
longer length, a missing position contributing `0`. -/
def cmpParts : List Int → List Int → Int
  | [], bs => cmpZero bs
  | a :: as, [] => if a < 0 then -1 else if 0 < a then 1 else cmpParts as []
  | a :: as, b :: bs =>
    if a < b then -1 else if b < a then 1 else cmpParts as bs

/-- `compareVersions` (migration.go:122): `-1`, `0` or `1`. -/
def compareVersions (a b : String) : Int :=
  cmpParts (parseVersionParts a) (parseVersionParts b)

/-! ### Properties of the comparator -/

lemma cmpParts_nil_right : ∀ y : List Int, cmpParts y [] = -cmpZero y := by
  intro y
  induction y with
  | nil => simp [cmpParts, cmpZero]
  | cons b bs ih =>
    simp only [cmpParts, cmpZero]
    split_ifs <;> first | omega | (rw [ih])

lemma cmpParts_neg : ∀ x y : List Int, cmpParts x y = -cmpParts y x := by
  intro x
  induction x with
  | nil =>
    intro y
    show cmpZero y = -cmpParts y []
    rw [cmpParts_nil_right]
    omega
  | cons a as ih =>
    intro y
    cases y with
    | nil =>
      rw [cmpParts_nil_right]
      show -cmpZero (a :: as) = -cmpParts [] (a :: as)
      rfl
    | cons b bs =>
      simp only [cmpParts]
      split_ifs <;> first | omega | exact ih bs

lemma cmpZero_trans : ∀ y z : List Int,
    cmpZero y = -1 → cmpParts y z = -1 → cmpZero z = -1 := by
  intro y
  induction y with
  | nil => intro z h1 _; simp [cmpZero] at h1
  | cons b bs ih =>
    intro z h1 h2
    cases z with
    | nil =>
      rw [cmpParts_nil_right] at h2
      omega
    | cons c cs =>
      simp only [cmpZero, cmpParts] at h1 h2 ⊢
      split_ifs at h1 h2 ⊢ <;> first | omega | exact ih cs h1 h2

lemma cmpParts_trans : ∀ x y z : List Int,
    cmpParts x y = -1 → cmpParts y z = -1 → cmpParts x z = -1 := by
  intro x
  induction x with
  | nil =>
    intro y z h1 h2
    exact cmpZero_trans y z h1 h2
  | cons a as ih =>
    intro y z h1 h2
    cases y with
    | nil =>
      cases z with
      | nil => rw [cmpParts_nil_right] at h1 ⊢; exact h1
      | cons c cs =>
        replace h2 : cmpZero (c :: cs) = -1 := h2
        simp only [cmpParts, cmpZero] at h1 h2 ⊢
        split_ifs at h1 h2 ⊢ <;> first | omega | exact ih [] cs h1 h2
    | cons b bs =>
      cases z with
      | nil =>
        simp only [cmpParts] at h1 h2 ⊢
        split_ifs at h1 h2 ⊢ <;> first | omega | exact ih bs [] h1 h2
      | cons c cs =>
        simp only [cmpParts] at h1 h2 ⊢
        split_ifs at h1 h2 ⊢ <;> first | omega | exact ih bs cs h1 h2

lemma cmpZero_mem : ∀ y : List Int, cmpZero y = -1 ∨ cmpZero y = 0 ∨ cmpZero y = 1 := by
  intro y
  induction y with
  | nil => simp [cmpZero]
  | cons b bs ih =>
    simp only [cmpZero]
    split_ifs <;> first | omega | exact ih

lemma cmpParts_mem : ∀ x y : List Int,
    cmpParts x y = -1 ∨ cmpParts x y = 0 ∨ cmpParts x y = 1 := by
  intro x
  induction x with
  | nil => intro y; exact cmpZero_mem y
  | cons a as ih =>
    intro y
    cases y with
    | nil =>
      simp only [cmpParts]
      split_ifs <;> first | omega | exact ih []
    | cons b bs =>
      simp only [cmpParts]
      split_ifs <;> first | omega | exact ih bs

lemma splitOnDot_ne_nil : ∀ cs : List Char, splitOnDot cs ≠ [] := by
  intro cs
  match cs with
  | [] => simp [splitOnDot]
  | c :: cs' =>
    simp only [splitOnDot]
    split
    · simp
    · split <;> simp

lemma splitOnDot_append_dot_zero :
    ∀ cs : List Char, splitOnDot (cs ++ ['.', '0']) = splitOnDot cs ++ [['0']] := by
  intro cs
  induction cs with
  | nil => decide
  | cons c cs ih =>
    by_cases hc : c = '.'
    · subst hc
      simp [splitOnDot, ih]
    · obtain ⟨g, gs, hg⟩ : ∃ g gs, splitOnDot cs = g :: gs := by
        cases h : splitOnDot cs with
        | nil => exact absurd h (splitOnDot_ne_nil cs)
        | cons g gs => exact ⟨g, gs, rfl⟩
      simp [splitOnDot, hc, ih, hg]

lemma cmpParts_self_append_zero : ∀ xs : List Int, cmpParts xs (xs ++ [0]) = 0 := by
  intro xs
  induction xs with
  | nil => decide
  | cons a as ih =>
    simp only [List.cons_append, cmpParts]
    split_ifs <;> first | omega | exact ih

lemma parseVersionParts_append_zero (a : String) :
    parseVersionParts (a ++ ".0") = parseVersionParts a ++ [0] := by
  unfold parseVersionParts
  rw [show (a ++ ".0").data = a.data ++ ['.', '0'] from rfl,
    splitOnDot_append_dot_zero, List.map_append]
  rfl

/-- C5: `compareVersions` splits each version on `.`, compares
position-by-position with a missing position read as `0` (so
`"1.2"` equals `"1.2.0"`, and more generally `a` equals `a ++ ".0"`),
treats an unparseable component as `0` (so `"1.x.0"` equals `"1.0.0"`),
and always returns one of `-1`, `0`, `1` — it never aborts. -/
theorem C5_compareVersions_pads_and_total :
    compareVersions "1.2" "1.2.0" = 0 ∧
    compareVersions "1.x.0" "1.0.0" = 0 ∧
    (∀ a : String, compareVersions a (a ++ ".0") = 0) ∧
    ∀ a b : String,
      compareVersions a b = -1 ∨ compareVersions a b = 0 ∨ compareVersions a b = 1 := by
  refine ⟨by decide, by decide, ?_, ?_⟩
  · intro a
    unfold compareVersions
    rw [parseVersionParts_append_zero]
    exact cmpParts_self_append_zero _
  · intro a b
    exact cmpParts_mem _ _

/-- C6: `compareVersions` is antisymmetric (`compare a b = -compare b a`)
and transitive on the strict order, for all version strings, and orders
components numerically: `"1.2.0"` comes before `"1.10.0"`. -/
theorem C6_compareVersions_antisymm_trans :
    (∀ a b : String, compareVersions a b = -compareVersions b a) ∧
    (∀ a b c : String, compareVersions a b = -1 → compareVersions b c = -1 →
      compareVersions a c = -1) ∧
    compareVersions "1.2.0" "1.10.0" = -1 :=
  ⟨fun _ _ => cmpParts_neg _ _, fun _ _ _ => cmpParts_trans _ _ _, by decide⟩

/-- Witness for C6 at concrete versions. -/
theorem C6_compareVersions_antisymm_trans_witness :
    compareVersions "1.0.0" "1.2.0" = -1 :=
  C6_compareVersions_antisymm_trans.2.1 "1.0.0" "1.1.0" "1.2.0" (by decide) (by decide)

/-! ## Statement splitter -/

/-- The single-quote character `U+0027`. -/
def squote : Char := Char.ofNat 39

/-- The double-quote character `U+0022`. -/
def dquote : Char := Char.ofNat 34

/-- The backslash character `U+005C`. -/
def backslash : Char := Char.ofNat 92

/-- Does the regex match of the line-comment pattern (two dashes, then
`.*$`) start at this position?  Go compiles the pattern without the
multiline flag, so `$` matches only at end of input and `.` never matches
a newline: the two dashes match only when no newline follows them. -/
def lineCommentHere : List Char → Bool
  | '-' :: '-' :: rest => ! rest.contains '\n'
  | _ => false

/-- `ReplaceAllString` of the line-comment pattern with the empty string:
scan left to right and delete from the leftmost match (which necessarily
extends to end of input) onward. -/
def stripLineComment : List Char → List Char
  | [] => []
  | c :: rest => if lineCommentHere (c :: rest) then [] else c :: stripLineComment rest

/-- Skip to just after the first close-of-block-comment marker, if any
(the non-greedy body of the block-comment pattern stops at the first
star-slash). -/
def dropToClose : List Char → Option (List Char)
  | [] => none
  | '*' :: '/' :: rest => some rest
  | _ :: rest => dropToClose rest

/-- One fuelled pass of `ReplaceAllString` of the block-comment pattern
with the empty string: at each slash-star either a close marker follows
somewhere (delete through it and resume after it) or there is no match
starting here (keep the character and advance).  Fuel only makes the
recursion structural; `stripBlockComments` supplies enough fuel that it
never runs out. -/
def sbcFuel : Nat → List Char → List Char
  | 0, cs => cs
  | _ + 1, [] => []
  | fuel + 1, '/' :: '*' :: rest =>
    (match dropToClose rest with
     | some rest2 => sbcFuel fuel rest2
     | none => '/' :: sbcFuel fuel ('*' :: rest))
  | fuel + 1, c :: rest => c :: sbcFuel fuel rest

/-- Remove every block comment (non-greedy matching). -/
def stripBlockComments (cs : List Char) : List Char := sbcFuel (cs.length + 1) cs

/-- The mutable scanner state of the loop inside `splitSQLStatements`. -/
structure SplitState where
  stmts : List (List Char)
  curr : List Char
  inString : Bool
  stringChar : Char
  escaped : Bool
deriving DecidableEq

/-- One iteration of the `for _, char := range content` loop of
`splitSQLStatements`, with the same case order as the Go `switch`. -/
def splitStep (st : SplitState) (c : Char) : SplitState :=
  if st.escaped then { st with curr := st.curr ++ [c], escaped := false }
  else if c = backslash then { st with curr := st.curr ++ [c], escaped := true }
  else if st.inString ∧ c = st.stringChar then
    { st with curr := st.curr ++ [c], inString := false }
  else if ¬ st.inString ∧ (c = squote ∨ c = dquote) then
    { st with curr := st.curr ++ [c], inString := true, stringChar := c }
  else if ¬ st.inString ∧ c = ';' then
    { st with
      stmts := st.stmts ++ (if trimSpace st.curr = [] then [] else [trimSpace st.curr]),
      curr := [] }
  else { st with curr := st.curr ++ [c] }

/-- `splitSQLStatements` (migration.go:58): strip comments, then scan
splitting on semicolons outside quoted strings, trimming each statement
and dropping empty ones, flushing the trailing statement at end of input. -/
def splitSQLStatements (content : String) : List String :=
  let cs := stripBlockComments (stripLineComment content.data)
  let st := cs.foldl splitStep ⟨[], [], false, Char.ofNat 0, false⟩
  (st.stmts ++ (if trimSpace st.curr = [] then [] else [trimSpace st.curr])).map
    (fun l => String.mk l)

/-! ### Properties of the splitter -/

/-- C2 counterexample: the claim says the two-line script yields exactly
one statement whose text is `SELECT 1`; the code yields one statement
whose text still contains the comment, because Go's regex anchor `$`
matches only at end of input (no multiline flag), so a `--` comment
followed by a newline is not removed. -/
theorem C2_counterexample :
    splitSQLStatements "-- comment\nSELECT 1;" ≠ ["SELECT 1"] ∧
    splitSQLStatements "-- comment\nSELECT 1;" = ["-- comment\nSELECT 1"] := by
  decide

/-- C2 amended: the splitter strips a line comment only when it runs to
the end of the whole script (RE2's `$` is end-of-input by default): the
two-line script keeps its comment and yields one statement
`-- comment\nSELECT 1`, while a comment on the final line is stripped, so
`SELECT 1; -- comment` yields exactly `SELECT 1`; in general any script
tail of the form dash-dash followed by newline-free text is removed. -/
theorem C2_amended_line_comment :
    splitSQLStatements "-- comment\nSELECT 1;" = ["-- comment\nSELECT 1"] ∧
    splitSQLStatements "SELECT 1; -- comment" = ["SELECT 1"] ∧
    ∀ w : List Char, w.contains '\n' = false → stripLineComment ('-' :: '-' :: w) = [] := by
  refine ⟨by decide, by decide, ?_⟩
  intro w h
  have h' : '\n' ∉ w := by simpa using h
  simp [stripLineComment, lineCommentHere, h']

/-- Witness for the amended C2 at a concrete comment body. -/
theorem C2_amended_line_comment_witness :
    stripLineComment ('-' :: '-' :: ['x']) = [] :=
  C2_amended_line_comment.2.2 ['x'] (by decide)

/-- C7: a semicolon inside a quoted string is literal content: in any
scanner state that is inside a string (opened by a quote other than `;`
itself, as every reachable string state is) the `;` is appended to the
current statement and closes nothing; and the script
`SELECT ';' AS x; SELECT 1;` splits into exactly two statements, the
first keeping the quoted semicolon. -/
theorem C7_quoted_semicolon_literal :
    (∀ st : SplitState, st.escaped = false → st.inString = true →
      st.stringChar ≠ ';' →
      splitStep st ';' = { st with curr := st.curr ++ [';'] }) ∧
    splitSQLStatements "SELECT \x27;\x27 AS x; SELECT 1;" =
      ["SELECT \x27;\x27 AS x", "SELECT 1"] := by
  constructor
  · intro st h1 h2 h3
    have hb : (';' : Char) ≠ backslash := by decide
    simp [splitStep, h1, h2, hb, h3.symm]
  · decide

/-- Witness for C7 at a concrete scanner state. -/
theorem C7_quoted_semicolon_literal_witness :
    splitStep ⟨[], ['a'], true, squote, false⟩ ';' =
      ⟨[], ['a', ';'], true, squote, false⟩ :=
  C7_quoted_semicolon_literal.1 ⟨[], ['a'], true, squote, false⟩ rfl rfl (by decide)

/-! ## Script filename parsing

The regex of `parseScriptVersion` (migration.go:164) anchors both ends,
the version is exactly three dot-separated digit groups, the description
is one or more non-newline characters (RE2 `.` does not match `\n`), and
the suffix is the literal `.sql`.  Because a digit group can contain
neither `.` nor `_`, each group of any match is forced to be a maximal
digit run, and the greedy description runs to the last four characters;
the matcher below is therefore deterministic. -/

/-- The matcher of `^V(\d+\.\d+\.\d+)__(.+)\.sql$` on a list of
characters, returning the two capture groups. -/
def pvCore (cs : List Char) : Option (List Char × List Char) :=
  match cs with
  | [] => none
  | c0 :: r0 =>
    if c0 = 'V' then
      match r0.dropWhile isDigit with
      | [] => none
      | cd1 :: r2 =>
        if cd1 = '.' then
          match r2.dropWhile isDigit with
          | [] => none
          | cd2 :: r4 =>
            if cd2 = '.' then
              match r4.dropWhile isDigit with
              | cu1 :: cu2 :: r6 =>
                if cu1 = '_' ∧ cu2 = '_' then
                  if r0.takeWhile isDigit = [] ∨ r2.takeWhile isDigit = [] ∨
                      r4.takeWhile isDigit = [] then none
                  else if 5 ≤ r6.length ∧ r6.drop (r6.length - 4) = ['.', 's', 'q', 'l'] ∧
                      (r6.take (r6.length - 4)).contains '\n' = false then
                    some (r0.takeWhile isDigit ++ '.' :: r2.takeWhile isDigit ++
                      '.' :: r4.takeWhile isDigit, r6.take (r6.length - 4))
                  else none
                else none
              | _ => none
            else none
        else none
    else none

/-- `parseScriptVersion` (migration.go:162): `(version, description)`,
or `none` for Go's "invalid script filename format" error. -/
def parseScriptVersion (filename : String) : Option (String × String) :=
  match pvCore filename.data with
  | some (v, d) => some (String.mk v, String.mk d)
  | none => none

/-- `extractVersionFromFile` (migration.go:152): the version, or `""` on
a parse error.  (The Go function first takes `filepath.Base`; the model
works directly on base names.) -/
def extractVersionFromFile (file : String) : String :=
  match parseScriptVersion file with
  | some (v, _) => v
  | none => ""

/-- The language of the filename regex, written out as the spec reads it
but with exactly three integer groups: `V`, three nonempty dot-separated
digit groups, `__`, a nonempty newline-free description, `.sql`. -/
def threeGroupPattern (cs : List Char) : Prop :=
  ∃ v1 v2 v3 d : List Char,
    cs = 'V' :: (v1 ++ ('.' :: (v2 ++ ('.' :: (v3 ++
      ('_' :: ('_' :: (d ++ ['.', 's', 'q', 'l'])))))))) ∧
    v1 ≠ [] ∧ v1.all isDigit ∧ v2 ≠ [] ∧ v2.all isDigit ∧ v3 ≠ [] ∧ v3.all isDigit ∧
    d ≠ [] ∧ d.contains '\n' = false

lemma all_takeWhile (p : Char → Bool) :
    ∀ l : List Char, (l.takeWhile p).all p = true := by
  intro l
  induction l with
  | nil => rfl
  | cons a as ih =>
    rw [List.takeWhile_cons]
    split
    · simpa [List.all_cons, *]
    · rfl

lemma span_digits (v : List Char) (c : Char) (rest : List Char)
    (hv : v.all isDigit = true) (hc : isDigit c = false) :
    (v ++ c :: rest).takeWhile isDigit = v ∧
    (v ++ c :: rest).dropWhile isDigit = c :: rest := by
  induction v with
  | nil => simp [List.takeWhile_cons, List.dropWhile_cons, hc]
  | cons a as ih =>
    rw [List.all_cons, Bool.and_eq_true] at hv
    have := ih hv.2
    simp [List.takeWhile_cons, List.dropWhile_cons, hv.1, this.1, this.2]

lemma pvCore_isSome_iff (cs : List Char) :
    (pvCore cs).isSome = true ↔ threeGroupPattern cs := by
  constructor
  · intro h
    cases cs with
    | nil => simp [pvCore] at h
    | cons c0 r0 =>
      by_cases hV : c0 = 'V'
      case neg => simp [pvCore, hV] at h
      subst hV
      rcases heq1 : r0.dropWhile isDigit with _ | ⟨cd1, r2⟩
      · simp [pvCore, heq1] at h
      by_cases hdot1 : cd1 = '.'
      case neg => simp [pvCore, heq1, hdot1] at h
      subst hdot1
      rcases heq2 : r2.dropWhile isDigit with _ | ⟨cd2, r4⟩
      · simp [pvCore, heq1, heq2] at h
      by_cases hdot2 : cd2 = '.'
      case neg => simp [pvCore, heq1, heq2, hdot2] at h
      subst hdot2
      rcases heq3 : r4.dropWhile isDigit with _ | ⟨cu1, _ | ⟨cu2, r6⟩⟩
      · simp [pvCore, heq1, heq2, heq3] at h
      · simp [pvCore, heq1, heq2, heq3] at h
      by_cases hu : cu1 = '_' ∧ cu2 = '_'
      case neg => simp [pvCore, heq1, heq2, heq3, hu] at h
      obtain ⟨hu1, hu2⟩ := hu
      subst hu1
      subst hu2
      simp only [pvCore, heq1, heq2, heq3, if_pos rfl, and_self, reduceIte] at h
      split_ifs at h with hg hc
      · simp at h
      · have hr0 : r0 = r0.takeWhile isDigit ++ '.' :: r2 := by
          conv_lhs => rw [← List.takeWhile_append_dropWhile (p := isDigit) (l := r0)]
          rw [heq1]
        have hr2 : r2 = r2.takeWhile isDigit ++ '.' :: r4 := by
          conv_lhs => rw [← List.takeWhile_append_dropWhile (p := isDigit) (l := r2)]
          rw [heq2]
        have hr4 : r4 = r4.takeWhile isDigit ++ '_' :: '_' :: r6 := by
          conv_lhs => rw [← List.takeWhile_append_dropWhile (p := isDigit) (l := r4)]
          rw [heq3]
        have hr6 : r6 = r6.take (r6.length - 4) ++ ['.', 's', 'q', 'l'] := by
          conv_lhs => rw [← List.take_append_drop (r6.length - 4) r6]
          rw [hc.2.1]
        push_neg at hg
        have hdpos : 0 < (r6.take (r6.length - 4)).length := by
          rw [List.length_take]
          omega
        refine ⟨r0.takeWhile isDigit, r2.takeWhile isDigit, r4.takeWhile isDigit,
          r6.take (r6.length - 4), ?_, hg.1, all_takeWhile isDigit r0, hg.2.1,
          all_takeWhile isDigit r2, hg.2.2, all_takeWhile isDigit r4,
          List.length_pos.mp hdpos, hc.2.2⟩
        conv_lhs => rw [hr0, hr2, hr4, hr6]
      · simp at h
  · rintro ⟨v1, v2, v3, d, rfl, h1, h1d, h2, h2d, h3, h3d, hd, hnl⟩
    have s1 := span_digits v1 '.'
      (v2 ++ ('.' :: (v3 ++ ('_' :: ('_' :: (d ++ ['.', 's', 'q', 'l'])))))) h1d (by decide)
    have s2 := span_digits v2 '.'
      (v3 ++ ('_' :: ('_' :: (d ++ ['.', 's', 'q', 'l'])))) h2d (by decide)
    have s3 := span_digits v3 '_' ('_' :: (d ++ ['.', 's', 'q', 'l'])) h3d (by decide)
    have hdlen : 0 < d.length := List.length_pos.mpr hd
    simp [pvCore, s1.1, s1.2, s2.1, s2.2, s3.1, s3.2, h1, h2, h3, hnl,
      List.drop_left, List.take_left]
    exact ⟨hdlen, by simpa using hnl⟩

/-- C3 counterexample: the claim accepts any number (one or more) of
dot-separated integer groups, in particular `V1.0__x.sql` and
`V1.0.0.0__x.sql`; the code's regex demands exactly three groups and
rejects both. -/
theorem C3_counterexample :
    parseScriptVersion "V1.0__x.sql" = none ∧
    parseScriptVersion "V1.0.0.0__x.sql" = none := by
  decide

/-- C3 amended: a filename is accepted by script-name parsing exactly
when it is `V`, then exactly three dot-separated nonempty decimal-digit
groups, then `__`, then a nonempty newline-free description, then
`.sql`; every other filename is rejected with an error.  In particular
`V1.0.0__x.sql` is accepted while `V1.0__x.sql`, `V1.0.0.0__x.sql` and
`init.sql` are rejected. -/
theorem C3_amended_three_group_filenames :
    (∀ filename : String,
      (parseScriptVersion filename).isSome = true ↔ threeGroupPattern filename.data) ∧
    parseScriptVersion "V1.0.0__x.sql" = some ("1.0.0", "x") ∧
    parseScriptVersion "V1.0__x.sql" = none ∧
    parseScriptVersion "V1.0.0.0__x.sql" = none ∧
    parseScriptVersion "init.sql" = none := by
  refine ⟨?_, by decide, by decide, by decide, by decide⟩
  intro filename
  rw [← pvCore_isSome_iff]
  unfold parseScriptVersion
  cases pvCore filename.data with
  | none => simp
  | some vd => simp

/-! ## The migration engine

The gorm database handle is modelled by `DBState`.  Statement execution
(`db.Exec`) appends the statement to `applied` or fails according to the
oracle `fails`; `tx.Create` appends a ledger row unless the unique index
on `version` is violated; `Begin`/`Commit` themselves always succeed.
The md5 digest of a script's content is the abstract `md5sum` parameter.
A file is a basename plus `Option`al content (`none` = unreadable). -/

/-- One row of `sys_db_version` (struct `Migration`, migration.go:19);
the timing/audit columns play no role in any claim and are omitted. -/
structure Migration where
  version : String
  description : String
  script : String
  checksum : String
  success : Bool
deriving DecidableEq

/-- The observable state of the database. -/
structure DBState where
  tableExists : Bool
  ledger : List Migration
  applied : List String
deriving DecidableEq

/-- A file of the script directory: basename and content (`none` when
reading the file fails). -/
structure FileEntry where
  name : String
  content : Option String
deriving DecidableEq

/-- `getExecutedVersions` (migration.go:183): all rows with
`success = true`, in table order. -/
def getExecutedVersions (ledger : List Migration) : List Migration :=
  ledger.filter (fun m => m.success)

/-- Lookup in the version map built by `getExecutedVersions`: the map is
filled in slice order, so a later row with the same version overwrites an
earlier one — the last matching row wins. -/
def versionLookup (rows : List Migration) (v : String) : Option Migration :=
  rows.reverse.find? (fun m => m.version == v)

/-- `executeSQLStatements` (migration.go:197): run each non-blank
statement with `s.db.Exec` — on the base connection, not on a
transaction — until one fails; returns the updated applied-statement log
and whether all statements succeeded. -/
def executeSQLStatements (fails : String → Bool) :
    List String → List String → List String × Bool
  | applied, [] => (applied, true)
  | applied, stmt :: rest =>
    if trimSpace stmt.data = [] then executeSQLStatements fails applied rest
    else if fails stmt then (applied, false)
    else executeSQLStatements fails (applied ++ [stmt]) rest

/-- `executeScriptFile` (migration.go:226): read the file, begin `tx`,
split and execute the statements, insert the ledger row via `tx.Create`,
commit; roll `tx` back on failure.  Modelled faithfully to the code: the
statements are executed through `s.db` (see `executeSQLStatements`), so
only the ledger insert is inside the transaction and a rollback leaves
the statements' effects in place.  `tx.Create` fails exactly when the
unique index on `version` already holds a row with this version. -/
def executeScriptFile (md5sum : String → String) (fails : String → Bool)
    (st : DBState) (file : FileEntry) (version description : String) : DBState × Bool :=
  match file.content with
  | none => (st, false)
  | some content =>
    let r := executeSQLStatements fails st.applied (splitSQLStatements content)
    if r.2 then
      if st.ledger.any (fun m => m.version == version) then
        ({ st with applied := r.1 }, false)
      else
        ({ st with
            applied := r.1,
            ledger := st.ledger ++
              [⟨version, description, file.name, md5sum content, true⟩] }, true)
    else ({ st with applied := r.1 }, false)

/-- `validateChecksum` (migration.go:210): read the file — an unreadable
file is an error; compute the digest and compare it to the recorded
checksum — a mismatch is only logged, the function succeeds either way. -/
def validateChecksum (md5sum : String → String) (file : FileEntry)
    (executed : Migration) : Bool :=
  match file.content with
  | none => false
  | some content =>
    if md5sum content = executed.checksum then true else true

/-- `processSQLFile` (migration.go:276): parse the name; skip (after the
checksum read) when the version is in the applied map; execute otherwise.
Result: `(state, newly-applied?, success)`. -/
def processSQLFile (md5sum : String → String) (fails : String → Bool)
    (rows : List Migration) (st : DBState) (file : FileEntry) :
    DBState × Bool × Bool :=
  match parseScriptVersion file.name with
  | none => (st, false, false)
  | some (version, description) =>
    match versionLookup rows version with
    | some executed =>
      if validateChecksum md5sum file executed then (st, false, true)
      else (st, false, false)
    | none =>
      let r := executeScriptFile md5sum fails st file version description
      (r.1, r.2, r.2)

/-- `filepath.Glob(dir, "V*.sql")` filter: the basename is `V`, then any
separator-free text, then `.sql`. -/
def globMatch (name : String) : Bool :=
  match name.data with
  | [] => false
  | c :: rest =>
    c == 'V' && decide (4 ≤ rest.length) &&
    rest.drop (rest.length - 4) == ['.', 's', 'q', 'l'] &&
    !(rest.take (rest.length - 4)).contains '/'

/-- Insert into a sorted list: before the first element it is
`lt`-smaller than (stable). -/
def insertBy {α : Type} (lt : α → α → Bool) (x : α) : List α → List α
  | [] => [x]
  | y :: ys => if lt x y then x :: y :: ys else y :: insertBy lt x ys

/-- Insertion sort, modelling the Go sorts (`sort.Strings` inside
`filepath.Glob`, `sort.Slice` in `Migrate`).  Go's `sort.Slice` is
unstable, so for inputs where the comparator ties the Go order is
unspecified; the concrete inputs of the theorems below tie only on
equal elements. -/
def sortBy {α : Type} (lt : α → α → Bool) : List α → List α
  | [] => []
  | x :: xs => insertBy lt x (sortBy lt xs)

/-- Lexicographic order on rune sequences; for UTF-8 this is exactly
the byte order Go's `sort.Strings` uses. -/
def charListLt : List Char → List Char → Bool
  | [], [] => false
  | [], _ :: _ => true
  | _ :: _, [] => false
  | a :: as, b :: bs =>
    if a.toNat < b.toNat then true
    else if b.toNat < a.toNat then false
    else charListLt as bs

/-- The `sort.Strings` order used by `filepath.Glob`. -/
def fileNameLt (a b : FileEntry) : Bool := charListLt a.name.data b.name.data

/-- The `sort.Slice` comparator of `Migrate` (migration.go:339). -/
def fileVersionLt (a b : FileEntry) : Bool :=
  decide (compareVersions (extractVersionFromFile a.name)
    (extractVersionFromFile b.name) < 0)

/-- The `for _, file := range files` loop of `Migrate`: process each
file, aborting on the first error.  Also returns the list of script
names that were newly applied (the loop's observable execution trace). -/
def migrateLoop (md5sum : String → String) (fails : String → Bool)
    (rows : List Migration) : List FileEntry → DBState → DBState × List String × Bool
  | [], st => (st, [], true)
  | f :: rest, st =>
    let r := processSQLFile md5sum fails rows st f
    if r.2.2 then
      let next := migrateLoop md5sum fails rows rest r.1
      (next.1, (if r.2.1 then [f.name] else []) ++ next.2.1, next.2.2)
    else (r.1, [], false)

/-- `Migrate` (migration.go:301): ensure the version table, load the
applied versions, glob `V*.sql`, sort by version, process in order. -/
def Migrate (md5sum : String → String) (fails : String → Bool)
    (dir : List FileEntry) (st : DBState) : DBState × List String × Bool :=
  let st1 := if st.tableExists then st else { st with tableExists := true }
  let rows := getExecutedVersions st1.ledger
  let files := sortBy fileVersionLt
    (sortBy fileNameLt (dir.filter (fun f => globMatch f.name)))
  migrateLoop md5sum fails rows files st1

/-! ### C1: the transaction does not cover statement execution -/

/-- C1 is a code bug, witnessed here by evaluation: the script
`V1.0.0__a.sql` holds two statements, `INSERT INTO t VALUES (1)` and
`BOOM`, and the oracle makes `BOOM` fail.  `Migrate` fails and writes no
ledger row — but the first statement's effect survives in the database
(`applied` is not empty), because `executeSQLStatements` runs the
statements through `s.db` while only the ledger insert uses the `tx`
that gets rolled back.  The claim (and the repository's own README,
which promises per-script transactional atomicity) says the first
statement's effect must not be observable. -/
theorem C1_failed_script_leaves_partial_effects :
    Migrate (fun _ => "cafe") (fun s => s == "BOOM")
      [⟨"V1.0.0__a.sql", some "INSERT INTO t VALUES (1);\nBOOM;"⟩]
      ⟨true, [], []⟩ =
    (⟨true, [], ["INSERT INTO t VALUES (1)"]⟩, [], false) := by
  decide

/-! ### C4: non-matching filenames and the glob -/

/-- C4 counterexample: a directory containing `init.sql` (no version
prefix).  The claim says `Migrate` must fail; instead the glob `V*.sql`
never surfaces `init.sql`, the file is silently ignored, and the run
succeeds, applying the other script. -/
theorem C4_counterexample :
    Migrate (fun _ => "m") (fun _ => false)
      [⟨"init.sql", some "CREATE TABLE t(x INT);"⟩, ⟨"V1.0.0__a.sql", some "SELECT 1;"⟩]
      ⟨false, [], []⟩ =
    (⟨true, [⟨"1.0.0", "a", "V1.0.0__a.sql", "m", true⟩], ["SELECT 1"]⟩,
      ["V1.0.0__a.sql"], true) := by
  decide

lemma filter_self_idem {α : Type} (p : α → Bool) :
    ∀ l : List α, (l.filter p).filter p = l.filter p := by
  intro l
  induction l with
  | nil => rfl
  | cons x xs ih =>
    by_cases h : p x = true
    · simp [List.filter_cons, h, ih]
    · simp [List.filter_cons, h, ih]

/-- C4 amended: files that do not match the glob `V*.sql` (such as
`init.sql`) are silently ignored — removing them from the directory
never changes the run; a file that matches the glob but not the naming
convention (such as `Vinit.sql`) makes `Migrate` fail when it is
reached, here before any script is applied. -/
theorem C4_amended_glob_filters_silently :
    (∀ (md5sum : String → String) (fails : String → Bool)
      (dir : List FileEntry) (st : DBState),
      Migrate md5sum fails dir st =
        Migrate md5sum fails (dir.filter (fun f => globMatch f.name)) st) ∧
    globMatch "init.sql" = false ∧
    Migrate (fun _ => "m") (fun _ => false)
      [⟨"Vinit.sql", some "CREATE TABLE t(x INT);"⟩, ⟨"V1.0.0__a.sql", some "SELECT 1;"⟩]
      ⟨false, [], []⟩ =
    (⟨true, [], []⟩, [], false) := by
  refine ⟨?_, by decide, by decide⟩
  intro md5sum fails dir st
  simp only [Migrate, filter_self_idem]

/-! ### C9, C10: already-applied scripts and the checksum read -/

/-- C9: an already-applied script whose current digest differs from the
recorded checksum is not fatal: `processSQLFile` succeeds without
touching the database or executing the script, and the run continues
exactly as if the script were absent. -/
theorem C9_checksum_mismatch_is_not_fatal
    (md5sum : String → String) (fails : String → Bool) (rows : List Migration)
    (st : DBState) (f : FileEntry) (v d content : String) (executed : Migration)
    (hparse : parseScriptVersion f.name = some (v, d))
    (hlook : versionLookup rows v = some executed)
    (hcont : f.content = some content)
    (hmismatch : md5sum content ≠ executed.checksum) :
    processSQLFile md5sum fails rows st f = (st, false, true) ∧
    ∀ rest : List FileEntry,
      migrateLoop md5sum fails rows (f :: rest) st =
        migrateLoop md5sum fails rows rest st := by
  have hproc : processSQLFile md5sum fails rows st f = (st, false, true) := by
    simp [processSQLFile, hparse, hlook, validateChecksum, hcont]
  refine ⟨hproc, ?_⟩
  intro rest
  simp [migrateLoop, hproc]

/-- Witness for C9: a recorded row with checksum `"recorded"` and a file
whose digest is `"x"`. -/
theorem C9_checksum_mismatch_is_not_fatal_witness :
    processSQLFile (fun _ => "x") (fun _ => false)
      [⟨"1.0.0", "a", "V1.0.0__a.sql", "recorded", true⟩]
      ⟨true, [], []⟩ ⟨"V1.0.0__a.sql", some "SELECT 2;"⟩ =
      (⟨true, [], []⟩, false, true) :=
  (C9_checksum_mismatch_is_not_fatal (fun _ => "x") (fun _ => false)
    [⟨"1.0.0", "a", "V1.0.0__a.sql", "recorded", true⟩]
    ⟨true, [], []⟩ ⟨"V1.0.0__a.sql", some "SELECT 2;"⟩
    "1.0.0" "a" "SELECT 2;" ⟨"1.0.0", "a", "V1.0.0__a.sql", "recorded", true⟩
    (by decide) (by decide) rfl (by decide)).1

/-- C10 (implicit): even for a script that will be skipped because its
version is already applied, the engine still reads the file to verify
the checksum; if the file is unreadable, `processSQLFile` errors and the
whole run aborts with the state unchanged and the remaining scripts
unprocessed. -/
theorem C10_unreadable_applied_script_aborts
    (md5sum : String → String) (fails : String → Bool) (rows : List Migration)
    (st : DBState) (f : FileEntry) (v d : String) (executed : Migration)
    (hparse : parseScriptVersion f.name = some (v, d))
    (hlook : versionLookup rows v = some executed)
    (hcont : f.content = none) :
    processSQLFile md5sum fails rows st f = (st, false, false) ∧
    ∀ rest : List FileEntry,
      migrateLoop md5sum fails rows (f :: rest) st = (st, [], false) := by
  have hproc : processSQLFile md5sum fails rows st f = (st, false, false) := by
    simp [processSQLFile, hparse, hlook, validateChecksum, hcont]
  refine ⟨hproc, ?_⟩
  intro rest
  simp [migrateLoop, hproc]

/-- Witness for C10: an applied version whose file is unreadable. -/
theorem C10_unreadable_applied_script_aborts_witness :
    migrateLoop (fun _ => "x") (fun _ => false)
      [⟨"1.0.0", "a", "V1.0.0__a.sql", "x", true⟩]
      [⟨"V1.0.0__a.sql", none⟩, ⟨"V1.0.1__b.sql", some "SELECT 1;"⟩]
      ⟨true, [], []⟩ = (⟨true, [], []⟩, [], false) :=
  (C10_unreadable_applied_script_aborts (fun _ => "x") (fun _ => false)
    [⟨"1.0.0", "a", "V1.0.0__a.sql", "x", true⟩]
    ⟨true, [], []⟩ ⟨"V1.0.0__a.sql", none⟩ "1.0.0" "a"
    ⟨"1.0.0", "a", "V1.0.0__a.sql", "x", true⟩
    (by decide) (by decide) rfl).2 [⟨"V1.0.1__b.sql", some "SELECT 1;"⟩]

/-! ### C8: idempotence of `Migrate` -/

lemma versionLookup_mem {rows : List Migration} {v : String} {m : Migration}
    (h : versionLookup rows v = some m) : m ∈ rows ∧ m.version = v := by
  unfold versionLookup at h
  refine ⟨List.mem_reverse.mp (List.mem_of_find?_eq_some h), ?_⟩
  have := List.find?_some h
  simpa using this

lemma versionLookup_isSome (rows : List Migration) (v : String)
    (h : ∃ m ∈ rows, m.version = v) : (versionLookup rows v).isSome = true := by
  unfold versionLookup
  obtain ⟨m, hm, hv⟩ := h
  have : ∃ x, x ∈ rows.reverse ∧ (x.version == v) = true :=
    ⟨m, List.mem_reverse.mpr hm, by simp [hv]⟩
  rw [List.find?_isSome]
  simpa using this

lemma processSQLFile_mono (md5sum : String → String) (fails : String → Bool)
    (rows : List Migration) (st : DBState) (f : FileEntry) :
    (∃ new, (processSQLFile md5sum fails rows st f).1.ledger = st.ledger ++ new) ∧
    (processSQLFile md5sum fails rows st f).1.tableExists = st.tableExists := by
  cases hparse : parseScriptVersion f.name with
  | none => simp [processSQLFile, hparse]
  | some vd =>
    obtain ⟨v, d⟩ := vd
    cases hlook : versionLookup rows v with
    | some executed =>
      cases hval : validateChecksum md5sum f executed <;>
        simp [processSQLFile, hparse, hlook, hval]
    | none =>
      cases hcont : f.content with
      | none => simp [processSQLFile, executeScriptFile, hparse, hlook, hcont]
      | some content =>
        simp only [processSQLFile, executeScriptFile, hparse, hlook, hcont]
        split_ifs with h1 h2
        · simp
        · exact ⟨⟨[⟨v, d, f.name, md5sum content, true⟩], by simp⟩, rfl⟩
        · simp

lemma processSQLFile_ok (md5sum : String → String) (fails : String → Bool)
    (rows : List Migration) (st : DBState) (f : FileEntry)
    (st2 : DBState) (did : Bool)
    (hrows : ∀ m ∈ rows, m.success = true ∧ m ∈ st.ledger)
    (h : processSQLFile md5sum fails rows st f = (st2, did, true)) :
    ∃ v d, parseScriptVersion f.name = some (v, d) ∧ f.content.isSome = true ∧
      ∃ m ∈ st2.ledger, m.success = true ∧ m.version = v := by
  cases hparse : parseScriptVersion f.name with
  | none => simp [processSQLFile, hparse] at h
  | some vd =>
    obtain ⟨v, d⟩ := vd
    refine ⟨v, d, rfl, ?_⟩
    cases hlook : versionLookup rows v with
    | some executed =>
      cases hcont : f.content with
      | none => simp [processSQLFile, hparse, hlook, validateChecksum, hcont] at h
      | some content =>
        simp only [processSQLFile, hparse, hlook, validateChecksum, hcont, ite_self,
          if_true, Prod.mk.injEq] at h
        obtain ⟨rfl, -, -⟩ := h
        obtain ⟨hmem, hver⟩ := versionLookup_mem hlook
        exact ⟨rfl, executed, (hrows executed hmem).2, (hrows executed hmem).1, hver⟩
    | none =>
      cases hcont : f.content with
      | none => simp [processSQLFile, executeScriptFile, hparse, hlook, hcont] at h
      | some content =>
        simp only [processSQLFile, executeScriptFile, hparse, hlook, hcont] at h
        split_ifs at h with h1 h2
        · simp at h
        · simp only [Prod.mk.injEq] at h
          obtain ⟨rfl, -, -⟩ := h
          exact ⟨rfl, ⟨v, d, f.name, md5sum content, true⟩, by simp, rfl, rfl⟩
        · simp at h

/-- Every script of `files` parses, was readable, and has a successful
ledger row in `st` — the post-state of a successful run. -/
def GoodFiles (st : DBState) (files : List FileEntry) : Prop :=
  ∀ f ∈ files, ∃ v d, parseScriptVersion f.name = some (v, d) ∧
    f.content.isSome = true ∧ ∃ m ∈ st.ledger, m.success = true ∧ m.version = v

lemma migrateLoop_ok_invariant (md5sum : String → String) (fails : String → Bool)
    (rows : List Migration) :
    ∀ (files : List FileEntry) (st st' : DBState) (xs : List String),
    (∀ m ∈ rows, m.success = true ∧ m ∈ st.ledger) →
    migrateLoop md5sum fails rows files st = (st', xs, true) →
    (∃ new, st'.ledger = st.ledger ++ new) ∧ st'.tableExists = st.tableExists ∧
      GoodFiles st' files := by
  intro files
  induction files with
  | nil =>
    intro st st' xs hrows h
    simp only [migrateLoop, Prod.mk.injEq] at h
    obtain ⟨rfl, -, -⟩ := h
    exact ⟨⟨[], by simp⟩, rfl, fun f hf => absurd hf (List.not_mem_nil f)⟩
  | cons f rest ih =>
    intro st st' xs hrows h
    rcases hproc : processSQLFile md5sum fails rows st f with ⟨st2, did, ok⟩
    simp only [migrateLoop, hproc] at h
    cases ok with
    | false => simp at h
    | true =>
      rcases hnext : migrateLoop md5sum fails rows rest st2 with ⟨st3, xs3, ok3⟩
      simp only [hnext, if_true, Prod.mk.injEq] at h
      obtain ⟨rfl, -, hok3⟩ := h
      have hmono := processSQLFile_mono md5sum fails rows st f
      rw [hproc] at hmono
      obtain ⟨⟨new2, hl2⟩, htab2⟩ := hmono
      have hrows2 : ∀ m ∈ rows, m.success = true ∧ m ∈ st2.ledger := by
        intro m hm
        exact ⟨(hrows m hm).1, by rw [hl2]; exact List.mem_append_left _ (hrows m hm).2⟩
      obtain ⟨⟨new3, hl3⟩, htab3, hgood3⟩ :=
        ih st2 st3 xs3 hrows2 (by rw [hnext, hok3.symm])
      refine ⟨⟨new2 ++ new3, by rw [hl3, hl2, List.append_assoc]⟩,
        by rw [htab3, htab2], ?_⟩
      intro g hg
      rcases List.mem_cons.mp hg with rfl | hg'
      · obtain ⟨v, d, hp, hc, m, hm, hms, hmv⟩ :=
          processSQLFile_ok md5sum fails rows st g st2 did hrows hproc
        exact ⟨v, d, hp, hc, m, by rw [hl3]; exact List.mem_append_left _ hm, hms, hmv⟩
      · exact hgood3 g hg'

lemma migrateLoop_all_skipped (md5sum : String → String) (fails : String → Bool)
    (rows : List Migration) :
    ∀ (files : List FileEntry) (st : DBState),
    (∀ f ∈ files, ∃ v d, parseScriptVersion f.name = some (v, d) ∧
      f.content.isSome = true ∧ (versionLookup rows v).isSome = true) →
    migrateLoop md5sum fails rows files st = (st, [], true) := by
  intro files
  induction files with
  | nil => intro st _; rfl
  | cons f rest ih =>
    intro st hgood
    obtain ⟨v, d, hp, hc, hl⟩ := hgood f (List.mem_cons_self f rest)
    obtain ⟨executed, hlk⟩ := Option.isSome_iff_exists.mp hl
    obtain ⟨content, hcont⟩ := Option.isSome_iff_exists.mp hc
    have hproc : processSQLFile md5sum fails rows st f = (st, false, true) := by
      simp [processSQLFile, hp, hlk, validateChecksum, hcont]
    have hrest := ih st (fun g hg => hgood g (List.mem_cons_of_mem f hg))
    simp [migrateLoop, hproc, hrest]

lemma migrateLoop_trace_sublist (md5sum : String → String) (fails : String → Bool)
    (rows : List Migration) :
    ∀ (files : List FileEntry) (st : DBState),
    List.Sublist (migrateLoop md5sum fails rows files st).2.1
      (files.map (fun f => f.name)) := by
  intro files
  induction files with
  | nil => intro st; simp [migrateLoop]
  | cons f rest ih =>
    intro st
    rcases hproc : processSQLFile md5sum fails rows st f with ⟨st2, did, ok⟩
    simp only [migrateLoop, hproc, List.map_cons]
    cases ok with
    | false => simp
    | true =>
      cases did with
      | false => simpa using (ih st2).cons f.name
      | true => simpa using (ih st2).cons₂ f.name

lemma insertBy_perm {α : Type} (lt : α → α → Bool) (x : α) :
    ∀ l : List α, (insertBy lt x l).Perm (x :: l) := by
  intro l
  induction l with
  | nil => exact List.Perm.refl _
  | cons y ys ih =>
    simp only [insertBy]
    split_ifs
    · exact List.Perm.refl _
    · exact (List.Perm.cons y ih).trans (List.Perm.swap x y ys)

lemma sortBy_perm {α : Type} (lt : α → α → Bool) :
    ∀ l : List α, (sortBy lt l).Perm l := by
  intro l
  induction l with
  | nil => exact List.Perm.refl _
  | cons x xs ih =>
    exact (insertBy_perm lt x (sortBy lt xs)).trans (List.Perm.cons x ih)

/-- C8: `Migrate` is idempotent.  If a run from `st` succeeds, ending in
state `st1` having newly applied the scripts `xs`, then a second run
from `st1` applies zero scripts and returns `st1` unchanged (ledger
included); and when the directory's filenames are distinct no script was
applied twice in the first run either, so each script ran exactly once
in total. -/
theorem C8_Migrate_idempotent
    (md5sum : String → String) (fails : String → Bool)
    (dir : List FileEntry) (st st1 : DBState) (xs : List String)
    (h : Migrate md5sum fails dir st = (st1, xs, true)) :
    Migrate md5sum fails dir st1 = (st1, [], true) ∧
    ((dir.map (fun f => f.name)).Nodup → xs.Nodup) := by
  simp only [Migrate] at h
  have hrows0 : ∀ m ∈ getExecutedVersions
      (if st.tableExists then st else { st with tableExists := true }).ledger,
      m.success = true ∧
      m ∈ (if st.tableExists then st else { st with tableExists := true }).ledger := by
    intro m hm
    unfold getExecutedVersions at hm
    exact ⟨(List.mem_filter.mp hm).2, (List.mem_filter.mp hm).1⟩
  obtain ⟨⟨new, hledger⟩, htab, hgood⟩ :=
    migrateLoop_ok_invariant md5sum fails _ _ _ _ _ hrows0 h
  have htab1 : st1.tableExists = true := by
    rw [htab]
    by_cases hte : st.tableExists <;> simp [hte]
  constructor
  · simp only [Migrate, htab1, if_true]
    apply migrateLoop_all_skipped
    intro f hf
    obtain ⟨v, d, hp, hc, m, hm, hms, hmv⟩ := hgood f hf
    refine ⟨v, d, hp, hc, versionLookup_isSome _ _ ⟨m, ?_, hmv⟩⟩
    unfold getExecutedVersions
    exact List.mem_filter.mpr ⟨hm, hms⟩
  · intro hnd
    have hsub : List.Sublist xs ((sortBy fileVersionLt (sortBy fileNameLt
        (dir.filter fun f => globMatch f.name))).map (fun f => f.name)) := by
      have := migrateLoop_trace_sublist md5sum fails
        (getExecutedVersions
          (if st.tableExists then st else { st with tableExists := true }).ledger)
        (sortBy fileVersionLt (sortBy fileNameLt (dir.filter fun f => globMatch f.name)))
        (if st.tableExists then st else { st with tableExists := true })
      rw [h] at this
      exact this
    have hperm : ((sortBy fileVersionLt (sortBy fileNameLt
        (dir.filter fun f => globMatch f.name))).map (fun f => f.name)).Perm
        ((dir.filter fun f => globMatch f.name).map (fun f => f.name)) :=
      ((sortBy_perm fileVersionLt _).trans (sortBy_perm fileNameLt _)).map _
    have hnd2 : ((dir.filter fun f => globMatch f.name).map (fun f => f.name)).Nodup :=
      hnd.sublist ((List.filter_sublist dir).map _)
    exact (hperm.nodup_iff.mpr hnd2).sublist hsub

/-- Witness for C8: the single-script directory applied by the run in
`C4_counterexample`-style conditions; the second run is a no-op. -/
theorem C8_Migrate_idempotent_witness :
    Migrate (fun _ => "m") (fun _ => false) [⟨"V1.0.0__a.sql", some "SELECT 1;"⟩]
      ⟨true, [⟨"1.0.0", "a", "V1.0.0__a.sql", "m", true⟩], ["SELECT 1"]⟩ =
      (⟨true, [⟨"1.0.0", "a", "V1.0.0__a.sql", "m", true⟩], ["SELECT 1"]⟩, [], true) :=
  (C8_Migrate_idempotent (fun _ => "m") (fun _ => false)
    [⟨"V1.0.0__a.sql", some "SELECT 1;"⟩] ⟨false, [], []⟩
    ⟨true, [⟨"1.0.0", "a", "V1.0.0__a.sql", "m", true⟩], ["SELECT 1"]⟩
    ["V1.0.0__a.sql"] (by decide)).1

end EdenGoMigration
